import Mathlib

/-!
# Browser glue script `static/js/script.js`

A shallow embedding of the three functions of the script (`runPipeline`,
`loadView`, `render`) and of the promise chains they register.

* The page is a record of the three DOM properties the script writes
  (`runBtn.disabled`, `status.textContent`, `results.innerHTML`).  The three
  elements are assumed to exist, as the script assumes.
* `results.innerHTML` is modelled by the markup text that the script assigns to
  it (`World.resultsHTML`).
* Asynchrony is modelled by an event machine: the script's pending promises are
  counted in the state, and the environment settles them one at a time
  (`Event`, `step`).  A log of the URLs handed to `fetch` is kept as history.
* What the page shows after the assignment is read off the markup text by
  `outline`, which follows the HTML parser on the markup that `render` can
  produce from its own tags and gives no answer elsewhere (section "Reading
  markup back").
-/

namespace Pipeline

/-! ## Data model -/

/-- File record of the `/data` payload: `{ name, all_keys }`. -/
structure FileRecord where
  name : String
  all_keys : List String
  deriving DecidableEq, Repr

/-- Grouped view data: the entries of the `/data` object, i.e. the list
`Object.entries(data)` of (group key, files) pairs in iteration order. -/
abbrev ViewData := List (String × List FileRecord)

/-- Safe integer: an integer of magnitude below 2^53.  Every such integer is a
Number, and `Number::toString` prints it as its exact decimal digits. -/
structure SafeInt where
  val : Int
  safe : val.natAbs < 2 ^ 53

/-- JSON values as produced by `res.json()`.  A Number that is a safe integer is
given by its value (`num`).  Any other Number (a fraction, an integer of
magnitude 2^53 or more) is given by the text that `Number::toString` prints for
it (`numText`): the script does nothing with a number but convert it to text. -/
inductive Json
  | null
  | bool (b : Bool)
  | num (n : SafeInt)
  | numText (text : String)
  | str (s : String)
  | arr (items : List Json)
  | obj (fields : List (String × Json))

/-- Error objects (rejection reasons and thrown exceptions): `name` and `message`. -/
structure JSError where
  name : String
  message : String
  deriving DecidableEq, Repr

/-- Outcome of a promise: fulfilled with a value or rejected with a reason. -/
inductive Settled (α : Type)
  | fulfilled (value : α)
  | rejected (reason : JSError)

/-- State of the page and of the script's outstanding work. -/
structure World where
  /-- The property `runBtn.disabled`. -/
  btnDisabled : Bool
  /-- The property `status.textContent`. -/
  statusText : String
  /-- The property `results.innerHTML`. -/
  resultsHTML : String
  /-- URLs passed to `fetch` so far, oldest first. -/
  requests : List String
  /-- Number of `fetch('/run')` promises not yet settled. -/
  runFetching : Nat
  /-- Number of `res.json()` promises of `/run` responses not yet settled. -/
  runDecoding : Nat
  /-- Number of `fetch('/data')` promises not yet settled. -/
  viewFetching : Nat
  /-- Number of `res.json()` promises of `/data` responses not yet settled. -/
  viewDecoding : Nat
  deriving DecidableEq, Repr

/-! ## String conversion of JavaScript values -/

/-- String form of an error object, `Error.prototype.toString`. -/
def JSError.toStr (e : JSError) : String :=
  if e.name = "" then e.message
  else if e.message = "" then e.name
  else e.name ++ ": " ++ e.message

/-- The exception thrown when a property of `null` is read. -/
def nullReadError : JSError :=
  ⟨"TypeError", "Cannot read properties of null (reading 'newly_analyzed')"⟩

/-- The exception thrown when an object has no usable `toString`. -/
def toPrimitiveError : JSError :=
  ⟨"TypeError", "Cannot convert object to primitive value"⟩

mutual
/-- The abstract operation ToString on a JSON value.  An object parsed from JSON
that has an own `toString` entry (never callable) cannot be converted. -/
def Json.toStr : Json → Except JSError String
  | .null => .ok "null"
  | .bool b => .ok (if b then "true" else "false")
  | .num n => .ok (toString n.val)
  | .numText text => .ok text
  | .str s => .ok s
  | .arr items => Json.joinStr items
  | .obj fields =>
    if fields.any (fun kv => kv.1 == "toString") then .error toPrimitiveError
    else .ok "[object Object]"
/-- The `Array.prototype.join` with the default separator: `null` elements give
the empty string. -/
def Json.joinStr : List Json → Except JSError String
  | [] => .ok ""
  | [.null] => .ok ""
  | [x] => x.toStr
  | .null :: rest =>
    match Json.joinStr rest with
    | .ok r => .ok ("," ++ r)
    | .error e => .error e
  | x :: rest =>
    match x.toStr with
    | .error e => .error e
    | .ok a =>
      match Json.joinStr rest with
      | .ok r => .ok (a ++ "," ++ r)
      | .error e => .error e
end

/-- The expression `data.newly_analyzed`: throws on `null`, gives `undefined`
(`none`) when the value is not an object or has no such entry. -/
def readNewlyAnalyzed : Json → Except JSError (Option Json)
  | .null => .error nullReadError
  | .obj fields => .ok (fields.lookup "newly_analyzed")
  | _ => .ok none

/-- The template literal of line 21,
"Complete! Newly analyzed: $(data.newly_analyzed) files." -/
def completeText (data : Json) : Except JSError String :=
  match readNewlyAnalyzed data with
  | .error e => .error e
  | .ok none => .ok ("Complete! Newly analyzed: " ++ "undefined" ++ " files.")
  | .ok (some v) =>
    match v.toStr with
    | .error e => .error e
    | .ok s => .ok ("Complete! Newly analyzed: " ++ s ++ " files.")

/-! ## `render` -/

/-- The template literal of line 75: one pill. -/
def pillHtml (genreKey key : String) : String :=
  "<span class=\"key-pill " ++ (if key = genreKey then "active" else "") ++ "\">"
    ++ key ++ "</span>"

/-- The expression `file.all_keys.map(...).join('')` of lines 74-76. -/
def tagsHtml (genreKey : String) (file : FileRecord) : String :=
  String.join (file.all_keys.map (pillHtml genreKey))

/-- The template literal of lines 78-83: one file item. -/
def fileHtml (genreKey : String) (file : FileRecord) : String :=
  "\n                <div class=\"file-item\">\n                    <div class=\"file-name\">"
    ++ file.name
    ++ "</div>\n                    <div class=\"file-keys\">"
    ++ tagsHtml genreKey file
    ++ "</div>\n                </div>\n            "

/-- The body of the `for` loop, lines 65-86: the markup of one group. -/
def groupHtml (genreKey : String) (files : List FileRecord) : String :=
  let html := "\n            <div class=\"genre-group\">\n                <div class=\"genre-header\">"
    ++ genreKey
    ++ "</div>\n                <div class=\"file-list\">\n        "
  let html := files.foldl (fun html file => html ++ fileHtml genreKey file) html
  html ++ "</div></div>"

/-- The function `render(data)`, lines 59-89: clear the container, then append
the markup of each group in iteration order. -/
def render (data : ViewData) (w : World) : World :=
  data.foldl (fun w g => { w with resultsHTML := w.resultsHTML ++ groupHtml g.1 g.2 })
    { w with resultsHTML := "" }

/-! ## `loadView` and `runPipeline` -/

/-- The call `loadView()`, lines 43-47: issue `fetch('/data')`. -/
def loadView (w : World) : World :=
  { w with requests := w.requests ++ ["/data"], viewFetching := w.viewFetching + 1 }

/-- The call `runPipeline()`, lines 9-17: disable the button, set the status and
issue `fetch('/run')`. -/
def runPipeline (w : World) : World :=
  { w with
    btnDisabled := true
    statusText := "Running Pipeline... (Scanning -> Gemini -> Map -> Reduce)"
    requests := w.requests ++ ["/run"]
    runFetching := w.runFetching + 1 }

/-- The success handler of lines 19-24.  The template literal is evaluated first;
if that throws, nothing has been written yet and the exception is returned. -/
def runPipelineThen (data : Json) (w : World) : Except JSError World :=
  match completeText data with
  | .error e => .error e
  | .ok s => .ok { loadView { w with statusText := s } with btnDisabled := false }

/-- The failure handler of lines 25-29. -/
def runPipelineCatch (err : JSError) (w : World) : World :=
  { w with statusText := "Error: " ++ err.toStr, btnDisabled := false }

/-! ## The event machine -/

/-- What can happen next: the script function `runPipeline` is called, or one of
the pending promises settles. -/
inductive Event
  /-- The call `runPipeline()`. -/
  | invoke
  /-- A pending `fetch('/run')` settles. -/
  | runFetched (r : Settled Unit)
  /-- A pending `res.json()` of a `/run` response settles. -/
  | runDecoded (r : Settled Json)
  /-- A pending `fetch('/data')` settles. -/
  | viewFetched (r : Settled Unit)
  /-- A pending `res.json()` of a `/data` response settles. -/
  | viewDecoded (r : Settled ViewData)

/-- One turn of the event loop.  The chain of `runPipeline` is
`fetch.then(json).then(success).catch(failure)`: a rejection at any stage, and
an exception thrown by the success handler, reach the failure handler.  The
chain of `loadView` is `fetch.then(json).then(render)` without a failure
handler: a rejection is dropped.  An event for which nothing is pending does
nothing. -/
def step (w : World) : Event → World
  | .invoke => runPipeline w
  | .runFetched r =>
    if w.runFetching = 0 then w
    else
      let w := { w with runFetching := w.runFetching - 1 }
      match r with
      | .fulfilled _ => { w with runDecoding := w.runDecoding + 1 }
      | .rejected err => runPipelineCatch err w
  | .runDecoded r =>
    if w.runDecoding = 0 then w
    else
      let w := { w with runDecoding := w.runDecoding - 1 }
      match r with
      | .rejected err => runPipelineCatch err w
      | .fulfilled data =>
        match runPipelineThen data w with
        | .ok w2 => w2
        | .error err => runPipelineCatch err w
  | .viewFetched r =>
    if w.viewFetching = 0 then w
    else
      let w := { w with viewFetching := w.viewFetching - 1 }
      match r with
      | .fulfilled _ => { w with viewDecoding := w.viewDecoding + 1 }
      | .rejected _ => w
  | .viewDecoded r =>
    if w.viewDecoding = 0 then w
    else
      let w := { w with viewDecoding := w.viewDecoding - 1 }
      match r with
      | .fulfilled data => render data w
      | .rejected _ => w

/-- Run a sequence of events. -/
def run (w : World) (es : List Event) : World := es.foldl step w

/-- Events that run a completion handler of `runPipeline` (the success or the
failure handler). -/
def Event.completesRun : Event → Bool
  | .runFetched (.rejected _) => true
  | .runDecoded _ => true
  | _ => false

/-- The promise an event settles is pending (a call of `runPipeline` is always
possible). -/
def Event.pending (w : World) : Event → Bool
  | .invoke => true
  | .runFetched _ => decide (0 < w.runFetching)
  | .runDecoded _ => decide (0 < w.runDecoding)
  | .viewFetched _ => decide (0 < w.viewFetching)
  | .viewDecoded _ => decide (0 < w.viewDecoding)

/-- The rejection reason of a network or decoding failure of `/run`. -/
def Event.runFailure : Event → Option JSError
  | .runFetched (.rejected err) => some err
  | .runDecoded (.rejected err) => some err
  | _ => none

/-- The event is a call of `runPipeline`. -/
def Event.isInvoke : Event → Bool
  | .invoke => true
  | _ => false

/-! ## Reading markup back

What the page shows is what the HTML parser makes of the text assigned to
`innerHTML`.  The reader below follows the parser on the part of HTML that
matters here and gives no answer (`none`) outside of it:

* the input stream is preprocessed: CR LF and a lone CR become LF;
* in character data `<` opens a tag, NUL is dropped, `&` followed by one of the
  names `amp`, `lt`, `gt`, `quot` and `;` is replaced by the character it
  names, `&` followed by a character that cannot start a reference is itself;
  any other reference is not read (`none`);
* only the tags that `render` writes are read (any other tag gives `none`), and
  an element that carries a label (header, file name, pill) must hold character
  data only, so that its label is its text content;
* the container is taken to be an element with ordinary flow content, such as a
  `div`. -/

/-- Newline normalisation of the parser input: CR LF and a lone CR become LF.
The flag says that the previous character was a CR. -/
def normalizeFrom (afterCR : Bool) : List Char → List Char
  | [] => []
  | c :: cs =>
    if c = '\r' then '\n' :: normalizeFrom true cs
    else if c = '\n' ∧ afterCR = true then normalizeFrom false cs
    else c :: normalizeFrom false cs

/-- Newline normalisation from the start of the input. -/
def normalizeNewlines (cs : List Char) : List Char := normalizeFrom false cs

/-- Reader state: in character data (`body` read so far), inside a tag (`name`
read so far, after the character data `before`), or inside a character
reference (`name` read so far, after the character data `body`). -/
inductive Mode
  | text (body : List Char)
  | tag (before name : List Char)
  | ref (body name : List Char)
  deriving DecidableEq, Repr

/-- The named character references that are read. -/
def charRef (name : List Char) : Option Char :=
  if name = ['a', 'm', 'p'] then some '&'
  else if name = ['l', 't'] then some '<'
  else if name = ['g', 't'] then some '>'
  else if name = ['q', 'u', 'o', 't'] then some '"'
  else none

/-- Consume one character.  A finished tag is given with the character data
that precedes it. -/
def scanStep (m : Mode) (c : Char) : Option (List (String × String) × Mode) :=
  match m with
  | .text b =>
    if c = '<' then some ([], .tag b [])
    else if c = '&' then some ([], .ref b [])
    else if c = '\x00' then some ([], .text b)
    else some ([], .text (b ++ [c]))
  | .tag b n =>
    if c = '>' then some ([(⟨b⟩, ⟨n⟩)], .text [])
    else some ([], .tag b (n ++ [c]))
  | .ref b n =>
    if c = ';' then (charRef n).map (fun d => ([], .text (b ++ [d])))
    else if c.isAlphanum = true ∨ c = '#' then some ([], .ref b (n ++ [c]))
    else if n = [] then
      if c = '<' then some ([], .tag (b ++ ['&']) [])
      else if c = '&' then some ([], .ref (b ++ ['&']) [])
      else if c = '\x00' then some ([], .text (b ++ ['&']))
      else some ([], .text (b ++ ['&', c]))
    else none

/-- Consume a list of characters, collecting the finished tags. -/
def scanRun : List Char → Mode → Option (List (String × String) × Mode)
  | [], m => some ([], m)
  | c :: cs, m =>
    match scanStep m c with
    | none => none
    | some r =>
      match scanRun cs r.2 with
      | none => none
      | some r2 => some (r.1 ++ r2.1, r2.2)

/-- The input may end in character data, not inside a tag or a reference name. -/
def scanEnd : Mode → Bool
  | .text _ => true
  | .tag _ _ => false
  | .ref _ n => decide (n = [])

/-- The tags of a markup text in document order, each with the character data
that precedes it (newlines normalised, NUL dropped, references replaced). -/
def elements (html : String) : Option (List (String × String)) :=
  match scanRun (normalizeNewlines html.data) (.text []) with
  | none => none
  | some r => if scanEnd r.2 = true then some r.1 else none

/-- The parts of the page the properties are about. -/
inductive Item
  /-- A group header with its label. -/
  | header (label : String)
  /-- A file name entry with its label. -/
  | fileName (label : String)
  /-- A pill, active or not, with its label. -/
  | pill (active : Bool) (label : String)
  deriving DecidableEq, Repr

/-- The opening tags of the labelled elements that `render` writes, each with
the item it stands for and its closing tag. -/
def labelled (tag : String) : Option ((String → Item) × String) :=
  if tag = "div class=\"genre-header\"" then some (Item.header, "/div")
  else if tag = "div class=\"file-name\"" then some (Item.fileName, "/div")
  else if tag = "span class=\"key-pill active\"" then some (Item.pill true, "/span")
  else if tag = "span class=\"key-pill \"" then some (Item.pill false, "/span")
  else none

/-- The other tags that `render` writes. -/
def structural (tag : String) : Bool :=
  tag = "div class=\"genre-group\"" || tag = "div class=\"file-list\""
    || tag = "div class=\"file-item\"" || tag = "div class=\"file-keys\""
    || tag = "/div" || tag = "/span"

/-- The labelled elements of a list of tags: a labelled opening tag must be
followed by character data and its closing tag, and the character data is its
label.  Tags that `render` does not write are not read. -/
def outlinePairs : List (String × String) → Option (List Item)
  | [] => some []
  | e :: rest =>
    match labelled e.2 with
    | some k =>
      match rest with
      | [] => none
      | e2 :: _ =>
        if e2.2 = k.2 then (outlinePairs rest).map (fun items => k.1 e2.1 :: items)
        else none
    | none => if structural e.2 = true then outlinePairs rest else none

/-- The headers, file names and pills of the page after the markup text is
assigned to `innerHTML`, in document order. -/
def outline (html : String) : Option (List Item) := (elements html).bind outlinePairs

/-- Labels of the group headers in an outline. -/
def headerLabels (items : List Item) : List String :=
  items.filterMap (fun i => match i with | .header l => some l | _ => none)

/-- Labels of the file name entries in an outline. -/
def fileNameLabels (items : List Item) : List String :=
  items.filterMap (fun i => match i with | .fileName l => some l | _ => none)

/-- Labels of the pills in an outline. -/
def pillLabels (items : List Item) : List String :=
  items.filterMap (fun i => match i with | .pill _ l => some l | _ => none)

/-- Labels of the active pills in an outline. -/
def activePillLabels (items : List Item) : List String :=
  items.filterMap (fun i => match i with | .pill true l => some l | _ => none)

/-- A string without the characters that the HTML parser does not take as they
are in character data: `<` (tag open), `&` (character reference), CR (becomes
LF) and NUL (dropped). -/
def isPlain (s : String) : Bool :=
  s.data.all (fun c => c != '<' && c != '&' && c != '\r' && c != '\x00')

/-- A file record whose name and keys are plain. -/
def FileRecord.isPlain (f : FileRecord) : Bool :=
  Pipeline.isPlain f.name && f.all_keys.all Pipeline.isPlain

/-- View data all of whose strings are plain. -/
def plainData (data : ViewData) : Bool :=
  data.all (fun g => isPlain g.1 && g.2.all FileRecord.isPlain)

/-- The outline a file item is meant to have: its name, then one pill per key,
active when the key is the group key. -/
def fileOutline (genreKey : String) (file : FileRecord) : List Item :=
  .fileName file.name :: file.all_keys.map (fun k => .pill (decide (k = genreKey)) k)

/-- The outline a group is meant to have: its header, then its files. -/
def groupOutline (g : String × List FileRecord) : List Item :=
  .header g.1 :: (g.2.map (fileOutline g.1)).flatten

/-- Put character data in front of what a reader state holds. -/
def Mode.shift (p : List Char) : Mode → Mode
  | .text b => .text (p ++ b)
  | .tag b n => .tag (p ++ b) n
  | .ref b n => .ref (p ++ b) n

/-- Put character data in front of the result of a scan: in front of the first
finished tag, or of the final state when no tag was finished. -/
def shiftResult (p : List Char) (r : List (String × String) × Mode) :
    List (String × String) × Mode :=
  match r.1 with
  | [] => ([], r.2.shift p)
  | e :: es => ((⟨p ++ e.1.data⟩, e.2) :: es, r.2)

/-- Scanning `s` from character data ends in character data, `s` has no CR, and
the tags finished on the way contribute the labelled elements `items`. -/
def Emits (s : String) (items : List Item) : Prop :=
  (∀ c ∈ s.data, c ≠ '\r') ∧
  ∀ b, ∃ es b2, scanRun s.data (.text b) = some (es, .text b2) ∧
    ∀ rest, outlinePairs (es ++ rest) = (outlinePairs rest).map (fun r => items ++ r)

/-! ## Concrete inputs -/

/-- The scenario of the specification: one group, one file, two keys. -/
def invoicesData : ViewData := [("Invoices", [⟨"a.pdf", ["Invoices", "2023"]⟩])]

/-- One group whose key carries markup. -/
def markupKeyData : ViewData := [("A</div><div class=\"genre-header\">B", [])]

/-- A file of group `g` whose second key carries the markup of an active pill. -/
def markupActiveFile : FileRecord :=
  ⟨"a", ["g", "x</span><span class=\"key-pill active\">y"]⟩

/-- A file with a single key that carries the markup of a pill. -/
def markupPillFile : FileRecord := ⟨"a", ["x</span><span class=\"key-pill \">y"]⟩

/-- A file without keys whose name carries the markup of a pill. -/
def markupNameFile : FileRecord :=
  ⟨"a</div><span class=\"key-pill \">b</span><div class=\"file-name\">c", []⟩

/-- A file with keys that hold a character reference, a CR and a NUL. -/
def rewrittenKeysFile : FileRecord := ⟨"a", ["p&lt;q", "r\rs", "t\x00u"]⟩

/-- A page with nothing pending, used for concrete runs. -/
def idlePage : World :=
  { btnDisabled := false, statusText := "", resultsHTML := "", requests := [],
    runFetching := 0, runDecoding := 0, viewFetching := 0, viewDecoding := 0 }

/-- The documented `/run` body with a count of zero. -/
def zeroBody : Json :=
  .obj [("status", .str "complete"), ("newly_analyzed", .num ⟨0, by decide⟩)]

/-! ## Structure of the markup written by `render` -/

/-- Folding `++` from an accumulator is the accumulator followed by the join. -/
lemma foldl_append_eq_join (l : List String) (acc : String) :
    l.foldl (fun r s => r ++ s) acc = acc ++ String.join l := by
  induction l generalizing acc with
  | nil => simp [String.join]
  | cons a l ih =>
    have h1 := ih (acc ++ a)
    have h2 := ih ("" ++ a)
    simp only [List.foldl_cons, String.join] at h1 h2 ⊢
    rw [h1, h2, String.empty_append, String.append_assoc]

/-- Joining a list of strings, head first. -/
lemma join_cons (a : String) (l : List String) :
    String.join (a :: l) = a ++ String.join l := by
  have h := foldl_append_eq_join l ("" ++ a)
  simp only [String.join, List.foldl_cons] at h ⊢
  rw [h, String.empty_append]

/-- Joining the empty list. -/
lemma join_nil : String.join [] = "" := rfl

/-- Joining a concatenation of lists. -/
lemma join_append (l1 l2 : List String) :
    String.join (l1 ++ l2) = String.join l1 ++ String.join l2 := by
  induction l1 with
  | nil => simp [join_nil]
  | cons a l ih => simp [join_cons, ih, String.append_assoc]

/-- The `forEach` loop of a group appends the file items to the text so far. -/
lemma files_foldl (genreKey : String) (files : List FileRecord) (acc : String) :
    files.foldl (fun html file => html ++ fileHtml genreKey file) acc
      = acc ++ String.join (files.map (fileHtml genreKey)) := by
  induction files generalizing acc with
  | nil => simp [join_nil]
  | cons f fs ih => simp [ih, join_cons, String.append_assoc]

/-- The markup of a group: opening part with the header, the file items, the
closing tags. -/
lemma groupHtml_eq (genreKey : String) (files : List FileRecord) :
    groupHtml genreKey files
      = "\n            <div class=\"genre-group\">\n                <div class=\"genre-header\">"
        ++ genreKey
        ++ "</div>\n                <div class=\"file-list\">\n        "
        ++ String.join (files.map (fileHtml genreKey))
        ++ "</div></div>" := by
  simp [groupHtml, files_foldl, String.append_assoc]

/-- The `for` loop of `render` appends the markup of the groups to the container
and writes nothing else. -/
lemma groups_foldl (data : ViewData) (w : World) :
    data.foldl (fun w g => { w with resultsHTML := w.resultsHTML ++ groupHtml g.1 g.2 }) w
      = { w with resultsHTML :=
            w.resultsHTML ++ String.join (data.map (fun g => groupHtml g.1 g.2)) } := by
  induction data generalizing w with
  | nil => simp [join_nil]
  | cons g gs ih => simp [ih, join_cons, String.append_assoc]

/-- After `render` the container holds the markup of the groups, whatever it
held before, and nothing else on the page has changed. -/
lemma render_eq (data : ViewData) (w : World) :
    render data w
      = { w with resultsHTML := String.join (data.map (fun g => groupHtml g.1 g.2)) } := by
  simp [render, groups_foldl]

/-! ## Scanning the markup written by `render` -/

/-- Without a CR the newline normalisation changes nothing. -/
lemma normalizeFrom_of_no_cr (cs : List Char) (h : ∀ c ∈ cs, c ≠ '\r') :
    normalizeFrom false cs = cs := by
  induction cs with
  | nil => rfl
  | cons c cs ih =>
    have hc : c ≠ '\r' := h c (List.mem_cons_self c cs)
    have := ih (fun x hx => h x (List.mem_cons_of_mem c hx))
    simp [normalizeFrom, hc, this]

/-- One step from a state with character data put in front. -/
lemma scanStep_shift (p : List Char) (m : Mode) (c : Char) :
    scanStep (m.shift p) c = (scanStep m c).map (shiftResult p) := by
  cases m with
  | text b =>
    simp only [Mode.shift, scanStep]
    split_ifs <;> simp [shiftResult, Mode.shift, List.append_assoc]
  | tag b n =>
    simp only [Mode.shift, scanStep]
    split_ifs <;> simp [shiftResult, Mode.shift]
  | ref b n =>
    simp only [Mode.shift, scanStep]
    split_ifs
    · cases charRef n <;> simp [shiftResult, Mode.shift, List.append_assoc]
    all_goals simp [shiftResult, Mode.shift, List.append_assoc]

/-- A scan from a state with character data put in front. -/
lemma scanRun_shift (cs : List Char) (p : List Char) (m : Mode) :
    scanRun cs (m.shift p) = (scanRun cs m).map (shiftResult p) := by
  induction cs generalizing m with
  | nil => simp [scanRun, shiftResult]
  | cons c cs ih =>
    simp only [scanRun, scanStep_shift]
    cases hstep : scanStep m c with
    | none => simp
    | some r =>
      obtain ⟨e1, m1⟩ := r
      cases e1 with
      | nil =>
        simp only [Option.map_some', shiftResult, List.nil_append, ih]
        cases hrun : scanRun cs m1 with
        | none => simp
        | some r2 =>
          obtain ⟨e2, m2⟩ := r2
          cases e2 <;> simp [shiftResult]
      | cons e es =>
        simp only [Option.map_some', shiftResult]
        cases hrun : scanRun cs m1 with
        | none => simp
        | some r2 => simp [shiftResult]

/-- A scan computed from empty character data gives the scan from any character
data. -/
lemma scanRun_text_of_closed {cs : List Char} {e : String × String}
    {es : List (String × String)} {m : Mode}
    (h : scanRun cs (.text []) = some (e :: es, m)) (p : List Char) :
    scanRun cs (.text p) = some ((⟨p ++ e.1.data⟩, e.2) :: es, m) := by
  have hs := scanRun_shift cs p (.text [])
  simp only [Mode.shift, List.append_nil] at hs
  rw [hs, h]
  simp [shiftResult]

/-- Scanning a concatenation: scan the first part, continue with the second. -/
lemma scanRun_append (a c : List Char) (m : Mode) :
    scanRun (a ++ c) m
      = (scanRun a m).bind (fun r => (scanRun c r.2).map (fun r2 => (r.1 ++ r2.1, r2.2))) := by
  induction a generalizing m with
  | nil =>
    cases h : scanRun c m with
    | none => simp [scanRun, h]
    | some r => simp [scanRun, h]
  | cons x a ih =>
    show scanRun (x :: (a ++ c)) m = _
    simp only [scanRun]
    cases hstep : scanStep m x with
    | none => simp
    | some r =>
      simp only []
      rw [ih r.2]
      cases h1 : scanRun a r.2 with
      | none => simp
      | some r1 =>
        cases h2 : scanRun c r1.2 with
        | none => simp [h2]
        | some r2 => simp [h2, List.append_assoc]

/-- Plain character data is appended to the current text. -/
lemma scanRun_plain (t : List Char) (b : List Char)
    (ht : ∀ c ∈ t, c ≠ '<' ∧ c ≠ '&' ∧ c ≠ '\x00') :
    scanRun t (.text b) = some ([], .text (b ++ t)) := by
  induction t generalizing b with
  | nil => simp [scanRun]
  | cons c t ih =>
    obtain ⟨h1, h2, h3⟩ := ht c (List.mem_cons_self c t)
    have := ih (b ++ [c]) (fun x hx => ht x (List.mem_cons_of_mem c hx))
    simp [scanRun, scanStep, h1, h2, h3, this]

/-- What plain strings are made of. -/
lemma isPlain_chars {k : String} (hk : isPlain k = true) :
    ∀ c ∈ k.data, c ≠ '<' ∧ c ≠ '&' ∧ c ≠ '\r' ∧ c ≠ '\x00' := by
  intro c hc
  simp only [isPlain, List.all_eq_true, Bool.and_eq_true] at hk
  have := hk c hc
  simpa [and_assoc] using this

/-- Fragments compose. -/
lemma emits_append {s1 s2 : String} {i1 i2 : List Item} (h1 : Emits s1 i1) (h2 : Emits s2 i2) :
    Emits (s1 ++ s2) (i1 ++ i2) := by
  refine ⟨?_, ?_⟩
  · intro c hc
    rw [String.data_append, List.mem_append] at hc
    rcases hc with hc | hc
    · exact h1.1 c hc
    · exact h2.1 c hc
  · intro b
    obtain ⟨es1, b1, hr1, ho1⟩ := h1.2 b
    obtain ⟨es2, b2, hr2, ho2⟩ := h2.2 b1
    refine ⟨es1 ++ es2, b2, ?_, ?_⟩
    · rw [String.data_append, scanRun_append, hr1]
      simp [hr2]
    · intro rest
      rw [List.append_assoc, ho1, ho2]
      cases outlinePairs rest <;> simp [List.append_assoc]

/-- The empty string is a fragment without items. -/
lemma emits_empty : Emits "" [] := by
  refine ⟨by simp, ?_⟩
  intro b
  refine ⟨[], b, by simp [scanRun], ?_⟩
  intro rest
  cases h : outlinePairs rest <;> simp [h]

/-- A join of fragments is a fragment. -/
lemma emits_join {α : Type} (f : α → String) (g : α → List Item) (l : List α)
    (h : ∀ x ∈ l, Emits (f x) (g x)) :
    Emits (String.join (l.map f)) (l.map g).flatten := by
  induction l with
  | nil => simpa [join_nil] using emits_empty
  | cons x l ih =>
    simp only [List.map_cons, join_cons, List.flatten_cons]
    exact emits_append (h x (List.mem_cons_self x l))
      (ih (fun y hy => h y (List.mem_cons_of_mem x hy)))

/-- The outline of a whole fragment is its items. -/
lemma outline_of_emits {s : String} {items : List Item} (h : Emits s items) :
    outline s = some items := by
  obtain ⟨es, b2, hr, ho⟩ := h.2 []
  have hn : normalizeNewlines s.data = s.data := normalizeFrom_of_no_cr s.data h.1
  have he : elements s = some es := by
    simp [elements, hn, hr, scanEnd]
  have := ho []
  simp only [List.append_nil] at this
  simp [outline, he, this, outlinePairs]

/-- A literal piece without CR that starts in character data, ends in character
data and finishes no labelled element is a fragment without items. -/
lemma emits_literal {B : String} {e : String × String} {eb : List (String × String)}
    {bB : List Char}
    (hB : scanRun B.data (.text []) = some (e :: eb, .text bB))
    (hcr : ∀ c ∈ B.data, c ≠ '\r')
    (hskip : ∀ x rest, outlinePairs ((x, e.2) :: eb ++ rest) = outlinePairs rest) :
    Emits B [] := by
  refine ⟨hcr, ?_⟩
  intro b
  refine ⟨_, bB, scanRun_text_of_closed hB b, ?_⟩
  intro rest
  rw [hskip]
  cases outlinePairs rest <;> simp

/-- A literal `A` that ends with the opening tag of a labelled element, a plain
label `k`, and a literal `B` that starts with the closing tag: the fragment has
the one item labelled `k`. -/
lemma emits_labelled {A B k : String} {e c : String × String}
    {ea eb : List (String × String)} {bB : List Char} {item : String → Item}
    (hA : scanRun A.data (.text []) = some (e :: ea, .text []))
    (hB : scanRun B.data (.text []) = some (c :: eb, .text bB))
    (hc : c.1 = "")
    (hcrA : ∀ x ∈ A.data, x ≠ '\r') (hcrB : ∀ x ∈ B.data, x ≠ '\r')
    (hout : ∀ x l rest, outlinePairs ((x, e.2) :: ea ++ (l, c.2) :: eb ++ rest)
      = (outlinePairs rest).map (fun r => [item l] ++ r))
    (hk : isPlain k = true) : Emits (A ++ k ++ B) [item k] := by
  have hkc := isPlain_chars hk
  refine ⟨?_, ?_⟩
  · intro x hx
    rw [String.data_append, String.data_append, List.mem_append, List.mem_append] at hx
    rcases hx with (hx | hx) | hx
    · exact hcrA x hx
    · exact (hkc x hx).2.2.1
    · exact hcrB x hx
  · intro b
    have h1 := scanRun_text_of_closed hA b
    have h2 := scanRun_plain k.data [] (fun x hx => ⟨(hkc x hx).1, (hkc x hx).2.1, (hkc x hx).2.2.2⟩)
    have h3 := scanRun_text_of_closed hB k.data
    refine ⟨(⟨b ++ e.1.data⟩, e.2) :: ea ++ (k, c.2) :: eb, bB, ?_, ?_⟩
    · rw [String.data_append, String.data_append, scanRun_append, scanRun_append, h1]
      simp only [List.nil_append] at h2
      simp only [Option.some_bind, h2, Option.map_some', List.append_nil]
      rw [h3]
      simp [hc]
    · intro rest
      exact hout _ k rest

/-! ## The trigger: `runPipeline` and its promise chain -/

/-- C1. When a pending decode of `/run` is fulfilled with an object whose entry
`newly_analyzed` is the number `n`, the success handler leaves the status text
"Complete! Newly analyzed: " followed by the rendering of `n` followed by
" files.": for a safe integer `n` (magnitude below 2^53) the rendering is the
decimal form of `n`. -/
theorem status_after_success (w : World) (fields : List (String × Json)) (n : Int)
    (hsafe : n.natAbs < 2 ^ 53)
    (hpending : 0 < w.runDecoding)
    (hfield : fields.lookup "newly_analyzed" = some (.num ⟨n, hsafe⟩)) :
    (step w (.runDecoded (.fulfilled (.obj fields)))).statusText
      = "Complete! Newly analyzed: " ++ toString n ++ " files." := by
  have h0 : w.runDecoding ≠ 0 := by omega
  simp [step, h0, runPipelineThen, completeText, readNewlyAnalyzed, hfield, Json.toStr,
    loadView]

/-- Scenario of C1: the body with `newly_analyzed` 0 gives
"Complete! Newly analyzed: 0 files.". -/
theorem status_after_success_witness :
    (step (run idlePage [.invoke, .runFetched (.fulfilled ())])
        (.runDecoded (.fulfilled (.obj [("status", .str "complete"),
          ("newly_analyzed", .num ⟨0, by decide⟩)])))).statusText
      = "Complete! Newly analyzed: 0 files." :=
  (status_after_success (run idlePage [.invoke, .runFetched (.fulfilled ())])
      [("status", .str "complete"), ("newly_analyzed", .num ⟨0, by decide⟩)] 0
      (by decide) (by decide) rfl).trans (by decide)

/-- A Number that is not a safe integer is rendered by its `Number::toString`
text. -/
lemma other_number_status (w : World) (fields : List (String × Json))
    (text : String) (hpending : 0 < w.runDecoding)
    (hfield : fields.lookup "newly_analyzed" = some (.numText text)) :
    (step w (.runDecoded (.fulfilled (.obj fields)))).statusText
      = "Complete! Newly analyzed: " ++ text ++ " files." := by
  have h0 : w.runDecoding ≠ 0 := by omega
  simp [step, h0, runPipelineThen, completeText, readNewlyAnalyzed, hfield, Json.toStr,
    loadView]

/-- A completion handler of `runPipeline` leaves the button enabled. -/
lemma runPipelineCatch_enabled (err : JSError) (w : World) :
    (runPipelineCatch err w).btnDisabled = false := rfl

/-- The success handler, when it does not throw, leaves the button enabled. -/
lemma runPipelineThen_enabled {data : Json} {w w2 : World}
    (h : runPipelineThen data w = .ok w2) : w2.btnDisabled = false := by
  unfold runPipelineThen at h
  split at h
  · cases h
  · cases h
    rfl

/-- C2. Whenever a completion handler of `runPipeline` runs, i.e. a pending
`fetch('/run')` rejects or a pending decode of `/run` settles in any way (it
rejects, or it is fulfilled and the success handler returns or throws), the
button ends with `disabled = false`. -/
theorem button_enabled_after_completion (w : World) (e : Event)
    (hcompletes : e.completesRun = true) (hpending : e.pending w = true) :
    (step w e).btnDisabled = false := by
  cases e with
  | invoke => simp [Event.completesRun] at hcompletes
  | runFetched r =>
    cases r with
    | fulfilled v => simp [Event.completesRun] at hcompletes
    | rejected err =>
      have h0 : w.runFetching ≠ 0 := by
        simp [Event.pending] at hpending
        omega
      simp [step, h0, runPipelineCatch]
  | runDecoded r =>
    have h0 : w.runDecoding ≠ 0 := by
      simp [Event.pending] at hpending
      omega
    cases r with
    | rejected err => simp [step, h0, runPipelineCatch]
    | fulfilled data =>
      simp only [step, h0, if_false]
      split
      · next w2 h => exact runPipelineThen_enabled h
      · rfl
  | viewFetched r => simp [Event.completesRun] at hcompletes
  | viewDecoded r => simp [Event.completesRun] at hcompletes

/-- Run of C2 in which the success handler throws: the body `null` is decoded,
reading its property throws, the failure handler runs, the button is enabled. -/
theorem button_enabled_after_completion_witness :
    (step (run idlePage [.invoke, .runFetched (.fulfilled ())])
      (.runDecoded (.fulfilled .null))).btnDisabled = false :=
  button_enabled_after_completion (run idlePage [.invoke, .runFetched (.fulfilled ())])
    (.runDecoded (.fulfilled .null)) rfl (by decide)

/-- An event that runs no completion handler keeps a disabled button disabled
and keeps the `/run` work that is outstanding. -/
lemma step_keeps_guard (w : World) (e : Event) (he : e.completesRun = false)
    (hw : w.btnDisabled = true ∧ 0 < w.runFetching + w.runDecoding) :
    (step w e).btnDisabled = true ∧ 0 < (step w e).runFetching + (step w e).runDecoding := by
  obtain ⟨hb, hp⟩ := hw
  cases e with
  | invoke => simp [step, runPipeline]
  | runFetched r =>
    cases r with
    | rejected err => simp [Event.completesRun] at he
    | fulfilled v =>
      by_cases h0 : w.runFetching = 0
      · simp [step, h0, hb]
        omega
      · simp [step, h0, hb]
  | runDecoded r => simp [Event.completesRun] at he
  | viewFetched r =>
    by_cases h0 : w.viewFetching = 0
    · simp [step, h0, hb, hp]
    · cases r <;> simp [step, h0, hb, hp]
  | viewDecoded r =>
    by_cases h0 : w.viewDecoding = 0
    · simp [step, h0, hb, hp]
    · cases r with
      | rejected err => simp [step, h0, hb, hp]
      | fulfilled data =>
        simp [step, h0, hb, hp, render_eq]

/-- The guard survives any sequence of events none of which runs a completion
handler. -/
lemma run_keeps_guard (es : List Event) (w : World)
    (hes : ∀ e ∈ es, e.completesRun = false)
    (hw : w.btnDisabled = true ∧ 0 < w.runFetching + w.runDecoding) :
    (run w es).btnDisabled = true ∧ 0 < (run w es).runFetching + (run w es).runDecoding := by
  induction es generalizing w with
  | nil => simpa [run] using hw
  | cons e es ih =>
    have h1 := step_keeps_guard w e (hes e (List.mem_cons_self e es)) hw
    have h2 := ih (step w e) (fun x hx => hes x (List.mem_cons_of_mem e hx)) h1
    simpa [run] using h2

/-- While a single run is outstanding and `runPipeline` is not called again, an
event keeps the guard: at most one `/run` is outstanding, and the button is
disabled as long as it is. -/
lemma step_keeps_single_guard (w : World) (e : Event) (he : e.isInvoke = false)
    (hw : w.runFetching + w.runDecoding ≤ 1
      ∧ (0 < w.runFetching + w.runDecoding → w.btnDisabled = true)) :
    (step w e).runFetching + (step w e).runDecoding ≤ 1
      ∧ (0 < (step w e).runFetching + (step w e).runDecoding
          → (step w e).btnDisabled = true) := by
  obtain ⟨h1, hb⟩ := hw
  cases e with
  | invoke => simp [Event.isInvoke] at he
  | runFetched r =>
    by_cases h0 : w.runFetching = 0
    · have hs : step w (.runFetched r) = w := by simp [step, h0]
      rw [hs]
      exact ⟨h1, hb⟩
    · have hd : w.runDecoding = 0 := by omega
      have hf : w.runFetching = 1 := by omega
      cases r with
      | fulfilled v =>
        have := hb (by omega)
        simp [step, hd, hf, this]
      | rejected err => simp [step, hd, hf, runPipelineCatch]
  | runDecoded r =>
    by_cases h0 : w.runDecoding = 0
    · have hs : step w (.runDecoded r) = w := by simp [step, h0]
      rw [hs]
      exact ⟨h1, hb⟩
    · have hf : w.runFetching = 0 := by omega
      have hd : w.runDecoding = 1 := by omega
      cases r with
      | rejected err => simp [step, hd, hf, runPipelineCatch]
      | fulfilled data =>
        simp only [step, h0, if_false, runPipelineThen]
        cases completeText data <;> simp [runPipelineCatch, loadView, hd, hf]
  | viewFetched r =>
    by_cases h0 : w.viewFetching = 0
    · have hs : step w (.viewFetched r) = w := by simp [step, h0]
      rw [hs]
      exact ⟨h1, hb⟩
    · simp only [step, h0, if_false]
      cases r <;> exact ⟨h1, hb⟩
  | viewDecoded r =>
    by_cases h0 : w.viewDecoding = 0
    · have hs : step w (.viewDecoded r) = w := by simp [step, h0]
      rw [hs]
      exact ⟨h1, hb⟩
    · simp only [step, h0, if_false]
      cases r with
      | rejected err => exact ⟨h1, hb⟩
      | fulfilled data =>
        simp only [render_eq]
        exact ⟨h1, hb⟩

/-- The single-run guard survives any sequence of events without a further call
of `runPipeline`. -/
lemma run_keeps_single_guard (es : List Event) (w : World)
    (hes : ∀ e ∈ es, e.isInvoke = false)
    (hw : w.runFetching + w.runDecoding ≤ 1
      ∧ (0 < w.runFetching + w.runDecoding → w.btnDisabled = true)) :
    (run w es).runFetching + (run w es).runDecoding ≤ 1
      ∧ (0 < (run w es).runFetching + (run w es).runDecoding
          → (run w es).btnDisabled = true) := by
  induction es generalizing w with
  | nil => simpa [run] using hw
  | cons e es ih =>
    have h1 := step_keeps_single_guard w e (hes e (List.mem_cons_self e es)) hw
    have h2 := ih (step w e) (fun x hx => hes x (List.mem_cons_of_mem e hx)) h1
    simpa [run] using h2

/-- C7, amended. For a run of `runPipeline` that does not overlap another run
(no `/run` work is outstanding when it is called and `runPipeline` is not
called again before it completes): after every sequence of events following the
call, as long as the `/run` request of the run is outstanding the button is
disabled.  And for every run, overlapping or not: through every sequence of
events in which no completion handler of `runPipeline` runs, the button stays
disabled and `/run` work is outstanding; `runPipeline` sets the flag to false
nowhere but in its completion handlers. -/
theorem disabled_while_in_flight (w : World) (es : List Event) :
    (w.runFetching = 0 → w.runDecoding = 0 → (∀ e ∈ es, e.isInvoke = false) →
      0 < (run (step w .invoke) es).runFetching + (run (step w .invoke) es).runDecoding →
      (run (step w .invoke) es).btnDisabled = true)
    ∧ ((∀ e ∈ es, e.completesRun = false) →
      (run (step w .invoke) es).btnDisabled = true
        ∧ 0 < (run (step w .invoke) es).runFetching
            + (run (step w .invoke) es).runDecoding) := by
  refine ⟨?_, ?_⟩
  · intro hf hd hes hout
    have h := run_keeps_single_guard es (step w .invoke) hes
      (by simp [step, runPipeline, hf, hd])
    exact h.2 hout
  · intro hes
    apply run_keeps_guard es (step w .invoke) hes
    simp [step, runPipeline]

/-- Run of C7: after the call on an idle page the `/run` response arrives and a
pending view load is rejected; the button is still disabled while the body is
decoded. -/
theorem disabled_while_in_flight_witness :
    (run (step (loadView idlePage) .invoke)
        [.runFetched (.fulfilled ()), .viewFetched (.rejected ⟨"TypeError", "Failed to fetch"⟩)]
      ).btnDisabled = true :=
  (disabled_while_in_flight (loadView idlePage)
    [.runFetched (.fulfilled ()), .viewFetched (.rejected ⟨"TypeError", "Failed to fetch"⟩)]).1
    rfl rfl
    (by
      intro e he
      simp only [List.mem_cons, List.mem_singleton, List.not_mem_nil, or_false] at he
      rcases he with rfl | rfl <;> rfl)
    (by decide)

/-- C7 as stated fails: `runPipeline` is called twice and the first `/run` fetch
is rejected; the failure handler of the first run enables the button while the
`/run` request of the second run is still outstanding. -/
theorem overlapping_runs_enable_button :
    (run idlePage [.invoke, .invoke,
        .runFetched (.rejected ⟨"TypeError", "Failed to fetch"⟩)]).btnDisabled = false
    ∧ (run idlePage [.invoke, .invoke,
        .runFetched (.rejected ⟨"TypeError", "Failed to fetch"⟩)]).runFetching = 1 := by
  decide

/-- C8, amended. The request `/data` of the view refresh is issued by the event
in which a pending decode of `/run` is fulfilled and the success handler does
not throw, exactly once, after the `/run` request in the log; this is the case
for every decoded object whose `newly_analyzed` is a number.  It is not issued
by the call of `runPipeline`, by the arrival of the `/run` response, by a
rejected fetch or decode of `/run`, by a decoded body on which the success
handler throws, or by the view events. -/
theorem view_refresh_after_decoded_run (w : World) :
    (step w .invoke).requests = w.requests ++ ["/run"]
    ∧ (∀ r, (step w (.runFetched r)).requests = w.requests)
    ∧ (∀ err, (step w (.runDecoded (.rejected err))).requests = w.requests)
    ∧ (∀ data s, 0 < w.runDecoding → completeText data = .ok s →
        (step w (.runDecoded (.fulfilled data))).requests = w.requests ++ ["/data"])
    ∧ (∀ fields n, 0 < w.runDecoding → fields.lookup "newly_analyzed" = some (.num n) →
        (step w (.runDecoded (.fulfilled (.obj fields)))).requests = w.requests ++ ["/data"])
    ∧ (∀ fields text, 0 < w.runDecoding →
        fields.lookup "newly_analyzed" = some (.numText text) →
        (step w (.runDecoded (.fulfilled (.obj fields)))).requests = w.requests ++ ["/data"])
    ∧ (∀ data err, completeText data = .error err →
        (step w (.runDecoded (.fulfilled data))).requests = w.requests)
    ∧ (∀ r, w.runDecoding = 0 → (step w (.runDecoded r)).requests = w.requests)
    ∧ (∀ r, (step w (.viewFetched r)).requests = w.requests)
    ∧ (∀ r, (step w (.viewDecoded r)).requests = w.requests)
    ∧ (∀ fields n, fields.lookup "newly_analyzed" = some (.num n) →
        (run w [.invoke, .runFetched (.fulfilled ()),
          .runDecoded (.fulfilled (.obj fields))]).requests = w.requests ++ ["/run", "/data"])
    ∧ (∀ err, (run w [.invoke, .runFetched (.rejected err)]).requests
        = w.requests ++ ["/run"])
    ∧ (∀ err, (run w [.invoke, .runFetched (.fulfilled ()),
          .runDecoded (.rejected err)]).requests = w.requests ++ ["/run"]) := by
  have hok : ∀ data s, 0 < w.runDecoding → completeText data = .ok s →
      (step w (.runDecoded (.fulfilled data))).requests = w.requests ++ ["/data"] := by
    intro data s hp hs
    have h0 : w.runDecoding ≠ 0 := by omega
    simp [step, h0, runPipelineThen, hs, loadView]
  refine ⟨?_, ?_, ?_, hok, ?_, ?_, ?_, ?_, ?_, ?_, ?_, ?_, ?_⟩
  · simp [step, runPipeline]
  · intro r
    by_cases h0 : w.runFetching = 0
    · simp [step, h0]
    · cases r <;> simp [step, h0, runPipelineCatch]
  · intro err
    by_cases h0 : w.runDecoding = 0
    · simp [step, h0]
    · simp [step, h0, runPipelineCatch]
  · intro fields n hp hf
    exact hok (.obj fields) ("Complete! Newly analyzed: " ++ toString n.val ++ " files.") hp
      (by simp [completeText, readNewlyAnalyzed, hf, Json.toStr])
  · intro fields text hp hf
    exact hok (.obj fields) ("Complete! Newly analyzed: " ++ text ++ " files.") hp
      (by simp [completeText, readNewlyAnalyzed, hf, Json.toStr])
  · intro data err he
    by_cases h0 : w.runDecoding = 0
    · simp [step, h0]
    · simp [step, h0, runPipelineThen, he, runPipelineCatch]
  · intro r h0
    cases r <;> simp [step, h0]
  · intro r
    by_cases h0 : w.viewFetching = 0
    · simp [step, h0]
    · cases r <;> simp [step, h0]
  · intro r
    by_cases h0 : w.viewDecoding = 0
    · simp [step, h0]
    · cases r <;> simp [step, h0, render_eq]
  · intro fields n hf
    simp [run, step, runPipeline, runPipelineThen, completeText, readNewlyAnalyzed, hf,
      Json.toStr, loadView]
  · intro err
    simp [run, step, runPipeline, runPipelineCatch]
  · intro err
    simp [run, step, runPipeline, runPipelineCatch]

/-- Run of C8: on an idle page the call, the response and the decoded zero-count
body issue `/run` and then `/data`, once each. -/
theorem view_refresh_after_decoded_run_witness :
    (step (run idlePage [.invoke, .runFetched (.fulfilled ())])
        (.runDecoded (.fulfilled zeroBody))).requests = ["/run", "/data"] :=
  (view_refresh_after_decoded_run (run idlePage [.invoke, .runFetched (.fulfilled ())])
    ).2.2.2.2.1 [("status", .str "complete"), ("newly_analyzed", .num ⟨0, by decide⟩)]
      ⟨0, by decide⟩ (by decide) rfl

/-- C8 as stated fails: the body `null` is received and decoded successfully,
yet no `/data` request is issued, because the success handler throws on it
before it reaches `loadView`. -/
theorem no_refresh_on_null_body :
    (run idlePage [.invoke, .runFetched (.fulfilled ()),
        .runDecoded (.fulfilled .null)]).requests = ["/run"]
    ∧ (run idlePage [.invoke, .runFetched (.fulfilled ()),
        .runDecoded (.fulfilled .null)]).runDecoding = 0 := by
  decide

/-- C9. When a pending fetch or decode of `/run` rejects with reason `err`, the
failure handler leaves the status text "Error: " followed by the string form of
`err`. -/
theorem status_after_failure (w : World) (e : Event) (err : JSError)
    (hfails : e.runFailure = some err) (hpending : e.pending w = true) :
    (step w e).statusText = "Error: " ++ err.toStr := by
  cases e with
  | invoke => simp [Event.runFailure] at hfails
  | runFetched r =>
    cases r with
    | fulfilled v => simp [Event.runFailure] at hfails
    | rejected err2 =>
      have h0 : w.runFetching ≠ 0 := by
        simp [Event.pending] at hpending
        omega
      simp only [Event.runFailure, Option.some.injEq] at hfails
      subst hfails
      simp [step, h0, runPipelineCatch]
  | runDecoded r =>
    cases r with
    | fulfilled v => simp [Event.runFailure] at hfails
    | rejected err2 =>
      have h0 : w.runDecoding ≠ 0 := by
        simp [Event.pending] at hpending
        omega
      simp only [Event.runFailure, Option.some.injEq] at hfails
      subst hfails
      simp [step, h0, runPipelineCatch]
  | viewFetched r => simp [Event.runFailure] at hfails
  | viewDecoded r => simp [Event.runFailure] at hfails

/-- Run of C9: the fetch of `/run` rejects with a network error. -/
theorem status_after_failure_witness :
    (step (step idlePage .invoke)
        (.runFetched (.rejected ⟨"TypeError", "Failed to fetch"⟩))).statusText
      = "Error: TypeError: Failed to fetch" :=
  (status_after_failure (step idlePage .invoke)
    (.runFetched (.rejected ⟨"TypeError", "Failed to fetch"⟩)) ⟨"TypeError", "Failed to fetch"⟩
    rfl (by decide)).trans (by decide)

/-- C10. Suppose a pending decode of `/run` is fulfilled with a body on which
the success handler does not throw, giving the status text `s` (a "Complete!
Newly analyzed: ... files." message).  Then the view load it started is
pending, and if that load fails, at the fetch or at the decoding, the status
text is still `s`, the button is enabled and the results container holds what
it held before: the failure handler of `runPipeline` has not run. -/
theorem view_failure_unhandled (w : World) (data : Json) (s : String) (err : JSError)
    (hpending : 0 < w.runDecoding) (hs : completeText data = .ok s) :
    (∃ t, s = "Complete! Newly analyzed: " ++ t ++ " files.")
    ∧ (step w (.runDecoded (.fulfilled data))).statusText = s
    ∧ (step w (.runDecoded (.fulfilled data))).btnDisabled = false
    ∧ 0 < (step w (.runDecoded (.fulfilled data))).viewFetching
    ∧ (step (step w (.runDecoded (.fulfilled data)))
          (.viewFetched (.rejected err))).statusText = s
    ∧ (step (step w (.runDecoded (.fulfilled data)))
          (.viewFetched (.rejected err))).btnDisabled = false
    ∧ (step (step w (.runDecoded (.fulfilled data)))
          (.viewFetched (.rejected err))).resultsHTML = w.resultsHTML
    ∧ (step (step (step w (.runDecoded (.fulfilled data))) (.viewFetched (.fulfilled ())))
          (.viewDecoded (.rejected err))).statusText = s
    ∧ (step (step (step w (.runDecoded (.fulfilled data))) (.viewFetched (.fulfilled ())))
          (.viewDecoded (.rejected err))).btnDisabled = false
    ∧ (step (step (step w (.runDecoded (.fulfilled data))) (.viewFetched (.fulfilled ())))
          (.viewDecoded (.rejected err))).resultsHTML = w.resultsHTML := by
  have h0 : w.runDecoding ≠ 0 := by omega
  have hstep : step w (.runDecoded (.fulfilled data))
      = { loadView { w with runDecoding := w.runDecoding - 1, statusText := s } with
          btnDisabled := false } := by
    simp [step, h0, runPipelineThen, hs]
  refine ⟨?_, ?_⟩
  · unfold completeText at hs
    split at hs
    · cases hs
    · exact ⟨"undefined", by cases hs; rfl⟩
    · split at hs
      · cases hs
      · next t _ => exact ⟨t, by cases hs; rfl⟩
  · rw [hstep]
    simp [step, loadView]

/-- Run of C10: the zero-count body is decoded, then the fetch of `/data` is
rejected. -/
theorem view_failure_unhandled_witness :
    (step (step (run idlePage [.invoke, .runFetched (.fulfilled ())])
          (.runDecoded (.fulfilled zeroBody)))
        (.viewFetched (.rejected ⟨"TypeError", "Failed to fetch"⟩))).statusText
      = "Complete! Newly analyzed: 0 files." :=
  (view_failure_unhandled (run idlePage [.invoke, .runFetched (.fulfilled ())]) zeroBody
    "Complete! Newly analyzed: 0 files." ⟨"TypeError", "Failed to fetch"⟩
    (by decide) rfl).2.2.2.2.1

/-! ## The renderer -/

/-- C5. The function `render` is a full replace: the container content after
`render data` is the markup of the groups of `data`, the same for every prior
page, and rendering the same data a second time changes nothing. -/
theorem render_full_replace (data : ViewData) (w1 w2 : World) :
    (render data w1).resultsHTML = String.join (data.map (fun g => groupHtml g.1 g.2))
    ∧ (render data w1).resultsHTML = (render data w2).resultsHTML
    ∧ render data (render data w1) = render data w1 := by
  simp [render_eq]

set_option maxRecDepth 100000 in
/-- One pill with a plain key is a fragment with that pill as its item. -/
lemma emits_pill (genreKey key : String) (hk : isPlain key = true) :
    Emits (pillHtml genreKey key) [.pill (decide (key = genreKey)) key] := by
  unfold pillHtml
  by_cases h : key = genreKey
  · subst h
    simp only [if_true, decide_True]
    exact @emits_labelled ("<span class=\"key-pill " ++ "active" ++ "\">") "</span>" key
      ("", "span class=\"key-pill active\"") ("", "/span") [] [] [] (Item.pill true)
      (by decide) (by decide) rfl (by decide) (by decide)
      (by
        intro x l rest
        cases h : outlinePairs rest <;> simp [outlinePairs, labelled, structural, h])
      hk
  · simp only [h, if_false, decide_False]
    exact @emits_labelled ("<span class=\"key-pill " ++ "" ++ "\">") "</span>" key
      ("", "span class=\"key-pill \"") ("", "/span") [] [] [] (Item.pill false)
      (by decide) (by decide) rfl (by decide) (by decide)
      (by
        intro x l rest
        cases h : outlinePairs rest <;> simp [outlinePairs, labelled, structural, h])
      hk

/-- The pills of a file with plain keys. -/
lemma emits_tags (genreKey : String) (file : FileRecord)
    (hk : ∀ k ∈ file.all_keys, isPlain k = true) :
    Emits (tagsHtml genreKey file)
      (file.all_keys.map (fun k => Item.pill (decide (k = genreKey)) k)) := by
  have h := emits_join (pillHtml genreKey)
    (fun k => [Item.pill (decide (k = genreKey)) k]) file.all_keys
    (fun k hkm => emits_pill genreKey k (hk k hkm))
  have hflat : ∀ l : List String,
      (l.map (fun k => [Item.pill (decide (k = genreKey)) k])).flatten
        = l.map (fun k => Item.pill (decide (k = genreKey)) k) := by
    intro l
    induction l with
    | nil => rfl
    | cons a l ih => simp [ih]
  rw [hflat] at h
  exact h

/-- What `FileRecord.isPlain` says. -/
lemma fileRecord_isPlain {f : FileRecord} (hf : f.isPlain = true) :
    isPlain f.name = true ∧ ∀ k ∈ f.all_keys, isPlain k = true := by
  simpa [FileRecord.isPlain, List.all_eq_true] using hf

set_option maxRecDepth 100000 in
/-- One file item with plain strings is a fragment whose items are the file name
and the pills. -/
lemma emits_file (genreKey : String) (file : FileRecord) (hf : file.isPlain = true) :
    Emits (fileHtml genreKey file) (fileOutline genreKey file) := by
  obtain ⟨hname, hkeys⟩ := fileRecord_isPlain hf
  unfold fileHtml fileOutline
  have hhead := @emits_labelled
    "\n                <div class=\"file-item\">\n                    <div class=\"file-name\">"
    "</div>\n                    <div class=\"file-keys\">" file.name
    ("\n                ", "div class=\"file-item\"") ("", "/div")
    [("\n                    ", "div class=\"file-name\"")]
    [("\n                    ", "div class=\"file-keys\"")] [] Item.fileName
    (by decide) (by decide) rfl (by decide) (by decide)
    (by
      intro x l rest
      cases h : outlinePairs rest <;> simp [outlinePairs, labelled, structural, h])
    hname
  have htail := @emits_literal "</div>\n                </div>\n            "
    ("", "/div") [("\n                ", "/div")] "\n            ".data
    (by decide) (by decide)
    (by
      intro x rest
      cases h : outlinePairs rest <;> simp [outlinePairs, labelled, structural, h])
  have h := emits_append (emits_append hhead (emits_tags genreKey file hkeys)) htail
  simpa using h

set_option maxRecDepth 100000 in
/-- One group with plain strings is a fragment whose items are the header and
the items of its files. -/
lemma emits_group (g : String × List FileRecord) (hg : isPlain g.1 = true)
    (hfs : ∀ f ∈ g.2, f.isPlain = true) :
    Emits (groupHtml g.1 g.2) (groupOutline g) := by
  rw [groupHtml_eq]
  unfold groupOutline
  have hhead := @emits_labelled
    "\n            <div class=\"genre-group\">\n                <div class=\"genre-header\">"
    "</div>\n                <div class=\"file-list\">\n        " g.1
    ("\n            ", "div class=\"genre-group\"") ("", "/div")
    [("\n                ", "div class=\"genre-header\"")]
    [("\n                ", "div class=\"file-list\"")] "\n        ".data Item.header
    (by decide) (by decide) rfl (by decide) (by decide)
    (by
      intro x l rest
      cases h : outlinePairs rest <;> simp [outlinePairs, labelled, structural, h])
    hg
  have hfiles := emits_join (fileHtml g.1) (fileOutline g.1) g.2
    (fun f hf => emits_file g.1 f (hfs f hf))
  have htail := @emits_literal "</div></div>" ("", "/div") [("", "/div")] []
    (by decide) (by decide)
    (by
      intro x rest
      cases h : outlinePairs rest <;> simp [outlinePairs, labelled, structural, h])
  have h := emits_append (emits_append hhead hfiles) htail
  simpa using h

/-- What `plainData` says. -/
lemma plainData_iff {data : ViewData} (hd : plainData data = true) :
    ∀ g ∈ data, isPlain g.1 = true ∧ ∀ f ∈ g.2, f.isPlain = true := by
  intro g hg
  simp only [plainData, List.all_eq_true, Bool.and_eq_true] at hd
  exact hd g hg

/-- The outline of what `render` writes for plain data: for each group its
header, then for each file its name and its pills. -/
lemma outline_render {data : ViewData} (hd : plainData data = true) (w : World) :
    outline (render data w).resultsHTML = some (data.map groupOutline).flatten := by
  have hgroups : ∀ g ∈ data, Emits (groupHtml g.1 g.2) (groupOutline g) :=
    fun g hg => emits_group g (plainData_iff hd g hg).1 (plainData_iff hd g hg).2
  have h := emits_join (fun g : String × List FileRecord => groupHtml g.1 g.2) groupOutline
    data hgroups
  have h2 : (render data w).resultsHTML = String.join (data.map (fun g => groupHtml g.1 g.2)) := by
    rw [render_eq]
  rw [h2]
  exact outline_of_emits h

/-- The outline of a single file item with plain strings. -/
lemma outline_fileHtml (genreKey : String) (file : FileRecord) (hf : file.isPlain = true) :
    outline (fileHtml genreKey file) = some (fileOutline genreKey file) :=
  outline_of_emits (emits_file genreKey file hf)

/-- The markup of a file item of the data is part of what `render` writes. -/
lemma render_contains_fileHtml {data : ViewData} {g : String} {fs : List FileRecord}
    {f : FileRecord} (hg : (g, fs) ∈ data) (hf : f ∈ fs) (w : World) :
    ∃ before after : String,
      (render data w).resultsHTML = before ++ fileHtml g f ++ after := by
  obtain ⟨d1, d2, hd⟩ := List.append_of_mem hg
  obtain ⟨f1, f2, hfs⟩ := List.append_of_mem hf
  refine ⟨String.join (d1.map (fun g => groupHtml g.1 g.2))
      ++ ("\n            <div class=\"genre-group\">\n                <div class=\"genre-header\">"
        ++ g ++ "</div>\n                <div class=\"file-list\">\n        "
        ++ String.join (f1.map (fileHtml g))),
    String.join (f2.map (fileHtml g)) ++ "</div></div>"
      ++ String.join (d2.map (fun g => groupHtml g.1 g.2)), ?_⟩
  rw [render_eq, hd]
  simp only [List.map_append, List.map_cons, join_append, join_cons, groupHtml_eq, hfs,
    String.append_assoc]

/-- A file item has no header. -/
lemma headerLabels_fileOutline (g : String) (f : FileRecord) :
    headerLabels (fileOutline g f) = [] := by
  simp [headerLabels, fileOutline, List.filterMap_map]

/-- A group has the one header labelled with its key. -/
lemma headerLabels_groupOutline (g : String × List FileRecord) :
    headerLabels (groupOutline g) = [g.1] := by
  have h : ∀ fs : List FileRecord, headerLabels (fs.map (fileOutline g.1)).flatten = [] := by
    intro fs
    induction fs with
    | nil => rfl
    | cons f fs ih =>
      have h1 := headerLabels_fileOutline g.1 f
      simp only [headerLabels] at h1 ih ⊢
      simp [List.filterMap_append, h1, ih]
  have h2 := h g.2
  simp only [headerLabels] at h2 ⊢
  simp [groupOutline, h2]

/-- The headers of the groups are labelled with the group keys, in order. -/
lemma headerLabels_groups (data : ViewData) :
    headerLabels (data.map groupOutline).flatten = data.map (fun g => g.1) := by
  induction data with
  | nil => rfl
  | cons g gs ih =>
    have h1 := headerLabels_groupOutline g
    simp only [headerLabels] at h1 ih ⊢
    simp [List.filterMap_append, h1, ih]

/-- The pills of a file item are labelled with its keys, in order. -/
lemma pillLabels_fileOutline (g : String) (f : FileRecord) :
    pillLabels (fileOutline g f) = f.all_keys := by
  simp only [pillLabels, fileOutline, List.filterMap_cons]
  induction f.all_keys with
  | nil => rfl
  | cons k ks ih => simp [ih]

/-- A file item has the one file name entry. -/
lemma fileNameLabels_fileOutline (g : String) (f : FileRecord) :
    fileNameLabels (fileOutline g f) = [f.name] := by
  simp [fileNameLabels, fileOutline, List.filterMap_map]

/-- The active pills of a file item are the occurrences of the group key. -/
lemma activePillLabels_fileOutline (g : String) (f : FileRecord) :
    activePillLabels (fileOutline g f) = List.replicate (f.all_keys.count g) g := by
  rw [← List.filter_eq]
  simp only [activePillLabels, fileOutline, List.filterMap_cons]
  induction f.all_keys with
  | nil => rfl
  | cons k ks ih =>
    by_cases hk : k = g
    · simp [hk, ih]
    · simp [hk, ih]

/-- A pill of a file item is active exactly when its label is the group key. -/
lemma pill_mem_fileOutline (g : String) (f : FileRecord) (a : Bool) (l : String)
    (h : Item.pill a l ∈ fileOutline g f) : (a = true ↔ l = g) := by
  simp only [fileOutline, List.mem_cons, List.mem_map] at h
  rcases h with h | ⟨k, _, hk⟩
  · cases h
  · cases hk
    simp

/-- C3, amended. For plain data (no group key, file name or pill key contains
`<`, `&`, CR or NUL) the page after `render` has exactly one group header per
group, and the headers are labelled with the group keys in iteration order. -/
theorem headers_match_groups (data : ViewData) (w : World) (hplain : plainData data = true) :
    (outline (render data w).resultsHTML).map headerLabels = some (data.map (fun g => g.1))
    ∧ (outline (render data w).resultsHTML).map (fun items => (headerLabels items).length)
        = some data.length := by
  rw [outline_render hplain]
  simp [headerLabels_groups]

set_option maxRecDepth 100000 in
/-- Scenario of C3: the data of the specification renders the one header
"Invoices". -/
theorem headers_match_groups_witness :
    (outline (render invoicesData idlePage).resultsHTML).map headerLabels
      = some ["Invoices"] :=
  (headers_match_groups invoicesData idlePage (by decide)).1

set_option maxRecDepth 100000 in
/-- C3 as stated fails: one group whose key contains markup renders two group
headers, neither labelled with the key; and a key with a character reference, a
CR or a NUL renders a header whose label is not the key. -/
theorem headers_markup_key :
    markupKeyData.length = 1
    ∧ (outline (render markupKeyData idlePage).resultsHTML).map headerLabels
        = some ["A", "B"]
    ∧ (outline (render [("a&amp;b", [])] idlePage).resultsHTML).map headerLabels
        = some ["a&b"]
    ∧ (outline (render [("a\rb", [])] idlePage).resultsHTML).map headerLabels
        = some ["a\nb"]
    ∧ (outline (render [("a\x00b", [])] idlePage).resultsHTML).map headerLabels
        = some ["ab"] := by
  decide

/-- On plain data the active pill of a file is the one that matches the group
header: a file listed under group key `g` whose `all_keys` contains `g` exactly
once has exactly one active pill, labelled `g`. -/
lemma active_pill_of_plain_file (g : String) (f : FileRecord) (hplain : f.isPlain = true)
    (honce : f.all_keys.count g = 1) :
    (outline (fileHtml g f)).map activePillLabels = some [g]
    ∧ (∀ items a l, outline (fileHtml g f) = some items → Item.pill a l ∈ items →
        (a = true ↔ l = g)) := by
  refine ⟨?_, ?_⟩
  · rw [outline_fileHtml g f hplain]
    simp only [Option.map_some', activePillLabels_fileOutline, honce]
    rfl
  · intro items a l h hmem
    rw [outline_fileHtml g f hplain] at h
    cases h
    exact pill_mem_fileOutline g f a l hmem

set_option maxRecDepth 100000 in
/-- C4 fails on the code: for the group key `g` and a file whose `all_keys`
contains `g` exactly once and a second key with markup, `render` writes two
active pills, one of them not labelled `g`. -/
theorem two_active_pills :
    markupActiveFile.all_keys.count "g" = 1
    ∧ (outline (fileHtml "g" markupActiveFile)).map activePillLabels = some ["g", "y"]
    ∧ (outline (render [("g", [markupActiveFile])] idlePage).resultsHTML).map activePillLabels
        = some ["g", "y"] := by
  decide

/-- C6, amended. For plain data (no group key, file name or pill key contains
`<`, `&`, CR or NUL), every file of every group is rendered (as part of the
output of `render`) by its name, once, followed by exactly one pill per element
of its `all_keys`, labelled with those keys in order; a file with an empty
`all_keys` is rendered by its name alone.  The whole page consists of the group
headers, each followed by these file renderings. -/
theorem file_name_and_pills (data : ViewData) (w : World) (g : String) (fs : List FileRecord)
    (f : FileRecord) (hplain : plainData data = true) (hg : (g, fs) ∈ data) (hf : f ∈ fs) :
    (∃ before after : String, (render data w).resultsHTML = before ++ fileHtml g f ++ after)
    ∧ outline (fileHtml g f) = some (fileOutline g f)
    ∧ (outline (fileHtml g f)).map fileNameLabels = some [f.name]
    ∧ (outline (fileHtml g f)).map pillLabels = some f.all_keys
    ∧ (f.all_keys = [] → outline (fileHtml g f) = some [.fileName f.name])
    ∧ outline (render data w).resultsHTML = some (data.map groupOutline).flatten := by
  have hfp : f.isPlain = true := (plainData_iff hplain (g, fs) hg).2 f hf
  have ho := outline_fileHtml g f hfp
  refine ⟨render_contains_fileHtml hg hf w, ho, ?_, ?_, ?_, outline_render hplain w⟩
  · rw [ho]
    simp [fileNameLabels_fileOutline]
  · rw [ho]
    simp [pillLabels_fileOutline]
  · intro hempty
    rw [ho]
    simp [fileOutline, hempty]

set_option maxRecDepth 100000 in
/-- Scenario of C6: in the data of the specification the file "a.pdf" has the
pills "Invoices" and "2023". -/
theorem file_name_and_pills_witness :
    (outline (fileHtml "Invoices" ⟨"a.pdf", ["Invoices", "2023"]⟩)).map pillLabels
      = some ["Invoices", "2023"] :=
  (file_name_and_pills invoicesData idlePage "Invoices" [⟨"a.pdf", ["Invoices", "2023"]⟩]
    ⟨"a.pdf", ["Invoices", "2023"]⟩ (by decide) (by decide) (by decide)).2.2.2.1

set_option maxRecDepth 100000 in
/-- C6 as stated fails: a file with one key that contains markup renders with
two pills; a file without keys whose name contains markup renders with a pill;
and keys with a character reference, a CR or a NUL render pills whose labels
are not the keys. -/
theorem pills_markup :
    markupPillFile.all_keys.length = 1
    ∧ (outline (render [("g", [markupPillFile])] idlePage).resultsHTML).map pillLabels
        = some ["x", "y"]
    ∧ markupNameFile.all_keys = []
    ∧ (outline (render [("g", [markupNameFile])] idlePage).resultsHTML).map pillLabels
        = some ["b"]
    ∧ rewrittenKeysFile.all_keys = ["p&lt;q", "r\rs", "t\x00u"]
    ∧ (outline (render [("g", [rewrittenKeysFile])] idlePage).resultsHTML).map pillLabels
        = some ["p<q", "r\ns", "tu"] := by
  decide

end Pipeline
